import Mathlib

/-!
# Verification of the domain-flow data layer and stats engine

Shallow embedding of the TypeScript sources of the domain-flow time-tracking
application, together with proofs about the embedded operations.

Conventions of the embedding:
* JavaScript `number` values that carry minutes, percentages and other exact
  quantities are modelled as `ℚ` (every computation the claims exercise is
  exact decimal/rational arithmetic, so `ℚ` agrees with the float semantics
  on all inputs considered).
* Epoch-millisecond timestamps are modelled as `Int`.
* A JavaScript `Map` is modelled as an insertion-ordered association list:
  `set` on an existing key rewrites the value in place, `set` on a fresh key
  appends, `get` finds the entry; iteration order is list order, which is
  exactly the `Map` iteration contract.
* A field that may be `undefined` (such as `deletedAt`) is an `Option`.
* `Array.prototype.sort` (stable since ES2019) with comparator
  `(a, b) => b.minutes - a.minutes` is modelled by a stable insertion sort
  that orders descending by the key and keeps the input order on ties.
-/

namespace DomainFlow

/-- A tag record (src/lib/types via calc.ts).  Fields not consulted by any
embedded operation (color, order, version, timestamps, archivedAt) are
omitted. -/
structure Tag where
  id : String
  domainId : String
  name : String
  deletedAt : Option Int
deriving DecidableEq, Repr

/-- A domain record (`DomainEntity` in src/lib/types). -/
structure DomainEntity where
  id : String
  name : String
  deletedAt : Option Int
deriving DecidableEq, Repr

/-- A time-slot record.  `endTime` embeds the source field `end`
(a reserved word in Lean). -/
structure TimeSlot where
  id : String
  start : Int
  endTime : Int
  tagIds : List String
  deletedAt : Option Int
deriving DecidableEq, Repr

/-- Per-tag ("subtag") statistics row (`SubtagStat` in src/lib/types). -/
structure SubtagStat where
  tagId : String
  name : String
  minutes : ℚ
deriving DecidableEq, Repr

/-- Per-domain statistics row (`DomainStat` in src/lib/types). -/
structure DomainStat where
  domain : String
  minutes : ℚ
  percentage : ℚ
  subtags : List SubtagStat
deriving DecidableEq, Repr

/-- The `attributionMode` parameter of `calculateDomainStats`:
`'split' | 'primary'`. -/
inductive AttributionMode where
  | split
  | primary
deriving DecidableEq, Repr

/-- `Map.get` on an insertion-ordered association list. -/
def mapGet (m : List (String × ℚ)) (k : String) : Option ℚ :=
  match m with
  | [] => none
  | p :: ps => if p.1 == k then some p.2 else mapGet ps k

/-- `Map.set` on an insertion-ordered association list: rewrite in place when
the key is present, append when it is fresh.  Every map in this file is built
from `[]` by `mapSet` alone, so keys are never duplicated and rewriting the
first occurrence is exactly the `Map` semantics. -/
def mapSet (m : List (String × ℚ)) (k : String) (v : ℚ) : List (String × ℚ) :=
  match m with
  | [] => [(k, v)]
  | p :: ps => if p.1 == k then (k, v) :: ps else p :: mapSet ps k v

/-- The `tagMap` lookup of calc.ts: `allTags.forEach(t => tagMap.set(t.id, t))`
followed by `tagMap.get(tagId)`.  Later inserts overwrite earlier ones, so the
lookup finds the last tag bearing the id. -/
def tagMapGet (allTags : List Tag) (tagId : String) : Option Tag :=
  allTags.reverse.find? (fun t => t.id == tagId)

/-- The `domainMap` lookup of calc.ts (`id -> name`), with the same
last-insert-wins behaviour. -/
def domainMapGet (allDomains : List DomainEntity) (domainId : String) : Option String :=
  (allDomains.reverse.find? (fun d => d.id == domainId)).map (fun d => d.name)

/-- Modelled from the spec: `getDurationMinutes` lives in src/lib/utils/date.ts,
which is not under src/.  Per the spec's data model, `start`/`end` are
epoch-millisecond timestamps and statistics are in minutes, so the duration of
a slot in minutes is `(end - start) / 60000`. -/
def getDurationMinutes (startMs endMs : Int) : ℚ :=
  ((endMs - startMs : Int) : ℚ) / 60000

/-- Accumulator of the slot loop of `calculateDomainStats`:
`(domainMinutes, tagMinutes)`. -/
abbrev MinuteMaps := List (String × ℚ) × List (String × ℚ)

/-- One iteration of the inner `for (const tagId of tagsToProcess)` loop:
resolve the tag, resolve its domain name, and add `minutesPerTag` to both the
domain's and the tag's accumulated minutes (the source's `|| 0` default reads
as `getD 0`). -/
def creditTag (allTags : List Tag) (allDomains : List DomainEntity) (minutesPerTag : ℚ)
    (st : MinuteMaps) (tagId : String) : MinuteMaps :=
  match tagMapGet allTags tagId with
  | none => st
  | some tag =>
    match domainMapGet allDomains tag.domainId with
    | none => st
    | some domainName =>
      (mapSet st.1 domainName ((mapGet st.1 domainName).getD 0 + minutesPerTag),
       mapSet st.2 tagId ((mapGet st.2 tagId).getD 0 + minutesPerTag))

/-- One iteration of the outer `for (const slot of slots)` loop of
`calculateDomainStats`: untagged slots are skipped; in split mode each tag is
credited `duration / tagIds.length`, in primary mode only the first tag
(`[slot.tagIds[0]]`, i.e. `take 1` of a nonempty list) is credited the full
duration. -/
def processSlot (allTags : List Tag) (allDomains : List DomainEntity)
    (mode : AttributionMode) (st : MinuteMaps) (slot : TimeSlot) : MinuteMaps :=
  let duration := getDurationMinutes slot.start slot.endTime
  if slot.tagIds.length = 0 then
    st
  else
    let minutesPerTag :=
      match mode with
      | AttributionMode.split => duration / (slot.tagIds.length : ℚ)
      | AttributionMode.primary => duration
    let tagsToProcess :=
      match mode with
      | AttributionMode.split => slot.tagIds
      | AttributionMode.primary => slot.tagIds.take 1
    tagsToProcess.foldl (creditTag allTags allDomains minutesPerTag) st

/-- The accumulated `(domainMinutes, tagMinutes)` maps after the slot loop. -/
def accumulateMinutes (slots : List TimeSlot) (allTags : List Tag)
    (allDomains : List DomainEntity) (mode : AttributionMode) : MinuteMaps :=
  slots.foldl (processSlot allTags allDomains mode) ([], [])

/-- Stable insertion of `a` into a list ordered descending by `key`: `a` goes
before the first element whose key is at most `key a`.  This inserts a later
encounter after every earlier element of equal key, matching a stable
descending sort. -/
def insertDescBy {α : Type} (key : α → ℚ) (a : α) : List α → List α
  | [] => [a]
  | b :: bs => if key b ≤ key a then a :: b :: bs else b :: insertDescBy key a bs

/-- Stable descending sort by `key`: the model of
`arr.sort((a, b) => b.key - a.key)` (ECMAScript `sort` is stable). -/
def sortDescBy {α : Type} (key : α → ℚ) : List α → List α
  | [] => []
  | a :: as => insertDescBy key a (sortDescBy key as)

/-- Building one `DomainStat` from an entry of `domainMinutes`: find the first
domain record bearing that name (the source's `allDomains.find`), collect the
ids of all tags whose `domainId` is that record's id, read each one's
accumulated minutes (`|| 0`), keep the positive ones and sort them descending.
The source reads `tagMap.get(tagId)!` for the subtag name; the lookup cannot
miss because `tagId` comes from `allTags`, and the `getD` default is
unreachable. -/
def buildDomainStat (allTags : List Tag) (allDomains : List DomainEntity)
    (tagMinutes : List (String × ℚ)) (totalMinutes : ℚ)
    (entry : String × ℚ) : Option DomainStat :=
  match allDomains.find? (fun d => d.name == entry.1) with
  | none => none
  | some domainEntity =>
    let domainTagIds :=
      (allTags.filter (fun t => t.domainId == domainEntity.id)).map (fun t => t.id)
    let subtags :=
      sortDescBy (fun s => s.minutes)
        ((domainTagIds.map (fun tagId =>
          { tagId := tagId
            name := ((tagMapGet allTags tagId).map (fun t => t.name)).getD ""
            minutes := (mapGet tagMinutes tagId).getD 0 : SubtagStat })).filter
          (fun s => decide (0 < s.minutes)))
    some
      { domain := entry.1
        minutes := entry.2
        percentage := if 0 < totalMinutes then entry.2 / totalMinutes * 100 else 0
        subtags := subtags }

/-- The `domainStats` list in source order, i.e. before the final sort: one
entry per `domainMinutes` entry in insertion order (the order in which domain
names were first credited), skipping names whose domain lookup fails
(the source's `continue`). -/
def unsortedDomainStats (slots : List TimeSlot) (allTags : List Tag)
    (allDomains : List DomainEntity) (mode : AttributionMode) : List DomainStat :=
  let acc := accumulateMinutes slots allTags allDomains mode
  let totalMinutes := (acc.1.map (fun p => p.2)).sum
  acc.1.filterMap (buildDomainStat allTags allDomains acc.2 totalMinutes)

/-- `calculateDomainStats` of src/lib/calc.ts. -/
def calculateDomainStats (slots : List TimeSlot) (allTags : List Tag)
    (allDomains : List DomainEntity) (mode : AttributionMode) : List DomainStat :=
  sortDescBy (fun d => d.minutes) (unsortedDomainStats slots allTags allDomains mode)

/-- `Math.round` on an exact rational: round half toward positive infinity. -/
def jsRound (q : ℚ) : Int := ⌊q + 1 / 2⌋

/-- Truncation toward zero, the rounding used by the JavaScript `%` operator. -/
def jsTrunc (q : ℚ) : Int := if 0 ≤ q then ⌊q⌋ else ⌈q⌉

/-- The JavaScript remainder `a % b`: `a - b * trunc(a / b)` (sign of the
dividend).  `formatDuration` only evaluates it at `a ≥ 60`, `b = 60`. -/
def jsFmod (a b : ℚ) : ℚ := a - b * ((jsTrunc (a / b) : Int) : ℚ)

/-- `formatDuration` of src/lib/calc.ts. -/
def formatDuration (minutes : ℚ) : String :=
  if minutes < 60 then
    toString (jsRound minutes) ++ "m"
  else
    let hours := ⌊minutes / 60⌋
    let mins := jsRound (jsFmod minutes 60)
    if mins = 0 then
      toString hours ++ "h"
    else
      toString hours ++ "h " ++ toString mins ++ "m"

/-- The spec's description of `formatDuration`, written from its words:
`<60` gives `"{round(minutes)}m"`; otherwise `"{floor(minutes/60)}h"` when the
remainder `minutes % 60` rounds to `0`, and
`"{floor(minutes/60)}h {round(remainder)}m"` otherwise. -/
def specFormatDuration (minutes : ℚ) : String :=
  if minutes < 60 then
    toString (jsRound minutes) ++ "m"
  else if jsRound (jsFmod minutes 60) = 0 then
    toString ⌊minutes / 60⌋ ++ "h"
  else
    toString ⌊minutes / 60⌋ ++ "h " ++ toString (jsRound (jsFmod minutes 60)) ++ "m"

/-! ## Read paths over the persisted store (part_000 hooks, part_003 HomePage) -/

/-- The persisted collections the read paths and the garbage collector see. -/
structure EntityStore where
  domains : List DomainEntity
  tags : List Tag
  timeslots : List TimeSlot
deriving DecidableEq, Repr

/-- The query shared by `useTimeSlots` and `useTimeSlotsRange` (part_000):
`db.timeslots.where('start').between(lo, hi, true, true).toArray()`, an
inclusive range filter on `start` with NO filtering of `deletedAt`.
`useTimeSlots date` calls it with the bounds of `date`'s day,
`useTimeSlotsRange startDate endDate` with the two dates' timestamps. -/
def timeslotsStartBetween (s : EntityStore) (lo hi : Int) : List TimeSlot :=
  s.timeslots.filter (fun ts => decide (lo ≤ ts.start) && decide (ts.start ≤ hi))

/-- The HomePage `slots` live query (part_003): the same inclusive range query
over the selected week followed by `filter((slot) => !slot.deletedAt)`. -/
def homeSlotsQuery (s : EntityStore) (weekStartMs weekEndMs : Int) : List TimeSlot :=
  (timeslotsStartBetween s weekStartMs weekEndMs).filter (fun ts => ts.deletedAt.isNone)

/-- The HomePage `allTags` live query (part_003):
`db.tags.toArray()` filtered by `!tag.deletedAt`. -/
def homeTagsQuery (s : EntityStore) : List Tag :=
  s.tags.filter (fun t => t.deletedAt.isNone)

/-- The HomePage `allDomains` live query (part_003):
`db.domains.toArray()` filtered by `!domain.deletedAt`. -/
def homeDomainsQuery (s : EntityStore) : List DomainEntity :=
  s.domains.filter (fun d => d.deletedAt.isNone)

/-! ## Garbage collection (dbHelpers.cleanupOldDeletedRecords) -/

/-- The spec's retention window of 7 days, in milliseconds. -/
def retentionWindowMs : Int := 7 * 24 * 60 * 60 * 1000

/-- Whether a record is an expired tombstone at time `now`: `deletedAt` is set
and `now - deletedAt ≥ 7 days`. -/
def isExpiredTombstone (now : Int) (deletedAt : Option Int) : Bool :=
  match deletedAt with
  | none => false
  | some t => decide (retentionWindowMs ≤ now - t)

/-- Modelled from the spec: `dbHelpers.cleanupOldDeletedRecords` lives in
src/lib/db.ts, which is not under src/ (part_003 only calls it on startup).
Per the spec's Garbage Collector section, it scans every entity kind for
records with `deletedAt` set and `now - deletedAt ≥ 7 days` and permanently
erases exactly those from the store. -/
def cleanupOldDeletedRecords (now : Int) (s : EntityStore) : EntityStore :=
  { domains := s.domains.filter (fun d => !isExpiredTombstone now d.deletedAt)
    tags := s.tags.filter (fun t => !isExpiredTombstone now t.deletedAt)
    timeslots := s.timeslots.filter (fun ts => !isExpiredTombstone now ts.deletedAt) }

/-! ## The in-memory data cache -/

/-- A cache entry: the stored value and its absolute expiry time. -/
structure CacheEntry (α : Type) where
  value : α
  expiresAt : Int
deriving DecidableEq, Repr

/-- Modelled from the spec: the `DataCache` class lives in src/lib/cache.ts,
which is not under src/ (only its tests are).  The cache is a key-value store
of entries with absolute expiry, modelled as an association list keyed by
strings. -/
structure DataCache (α : Type) where
  entries : List (String × CacheEntry α)
deriving DecidableEq, Repr

/-- Modelled from the spec: `get` returns the stored value if the key is
present and `now < expiresAt`, otherwise `null`. -/
def DataCache.get {α : Type} (c : DataCache α) (key : String) (now : Int) : Option α :=
  match c.entries.find? (fun p => p.1 == key) with
  | none => none
  | some p => if now < p.2.expiresAt then some p.2.value else none

/-- The JavaScript `key.startsWith(pat)` test: `pat`'s characters are an
initial segment of `key`'s. -/
def strStartsWith (key pat : String) : Bool :=
  pat.data.isPrefixOf key.data

/-- Modelled from the spec: `invalidatePattern(p)` removes every key that
starts with `p` (prefix match, not regex, not substring); all other entries
are untouched. -/
def DataCache.invalidatePattern {α : Type} (c : DataCache α) (pat : String) : DataCache α :=
  ⟨c.entries.filter (fun p => !strStartsWith p.1 pat)⟩

/-- The keys of `domainMinutes` are names of records in `allDomains`. -/
def NamesFromDomains (allDomains : List DomainEntity) (m : List (String × ℚ)) : Prop :=
  ∀ p ∈ m, ∃ d ∈ allDomains, d.name = p.1

/-! ## Concrete records used by the example parts of the theorems -/

def tagDeepWork : Tag := ⟨"t1", "d1", "Deep Work", none⟩

def tagRunning : Tag := ⟨"t2", "d2", "Running", none⟩

def domWork : DomainEntity := ⟨"d1", "Work", none⟩

def domHealth : DomainEntity := ⟨"d2", "Health", none⟩

/-- A 60-minute slot carrying both tags. -/
def slotHour : TimeSlot := ⟨"s1", 0, 3600000, ["t1", "t2"], none⟩

/-- A 30-minute slot tagged `t1`. -/
def slotHalfHour : TimeSlot := ⟨"s2", 0, 1800000, ["t1"], none⟩

/-- A 90-minute slot tagged `t2`. -/
def slotNinety : TimeSlot := ⟨"s3", 0, 5400000, ["t2"], none⟩

/-- An untagged 60-minute slot. -/
def slotUntagged : TimeSlot := ⟨"s4", 0, 3600000, [], none⟩

/-- A soft-deleted slot (tombstone). -/
def slotDeleted : TimeSlot := ⟨"s5", 100, 200, [], some 150⟩

def storeWithTombstone : EntityStore := ⟨[], [], [slotDeleted]⟩

/-- Two distinct domain records sharing the name "X". -/
def domX1 : DomainEntity := ⟨"dX1", "X", none⟩

def domX2 : DomainEntity := ⟨"dX2", "X", none⟩

/-- A tag in the first domain named "X". -/
def tagAlpha : Tag := ⟨"tA", "dX1", "Alpha", none⟩

/-- A tag in the second domain named "X". -/
def tagBeta : Tag := ⟨"tB", "dX2", "Beta", none⟩

/-- A 60-minute slot tagged `tA`. -/
def slotAlpha : TimeSlot := ⟨"sA", 0, 3600000, ["tA"], none⟩

/-- A 30-minute slot tagged `tB`. -/
def slotBeta : TimeSlot := ⟨"sB", 0, 1800000, ["tB"], none⟩

/-- The DomainStat produced for Health by the 30/90 example below. -/
def statHealthDemo : DomainStat :=
  { domain := "Health", minutes := 90, percentage := 75,
    subtags := [{ tagId := "t2", name := "Running", minutes := 90 }] }

/-- A demo cache over `Nat` values. -/
def cacheDemo : DataCache Nat :=
  ⟨[("tags:all", ⟨1, 10⟩), ("tags:active", ⟨2, 10⟩), ("xtags:other", ⟨3, 10⟩)]⟩

/-! ## Association-list map lemmas -/

theorem mapGet_mapSet_self (m : List (String × ℚ)) (k : String) (v : ℚ) :
    mapGet (mapSet m k v) k = some v := by
  induction m with
  | nil => simp [mapSet, mapGet]
  | cons p ps ih =>
    by_cases h : p.1 = k
    · simp [mapSet, mapGet, h]
    · simp [mapSet, mapGet, h, ih]

theorem mapGet_mapSet_ne (m : List (String × ℚ)) (k k' : String) (v : ℚ)
    (h : k' ≠ k) : mapGet (mapSet m k v) k' = mapGet m k' := by
  induction m with
  | nil => simp [mapSet, mapGet, Ne.symm h]
  | cons p ps ih =>
    by_cases hp : p.1 = k
    · simp [mapSet, mapGet, hp, Ne.symm h]
    · by_cases hp' : p.1 = k'
      · simp [mapSet, mapGet, hp, hp', h, Ne.symm h]
      · simp [mapSet, mapGet, hp, hp', ih]

theorem mem_mapSet (p : String × ℚ) (m : List (String × ℚ)) (k : String) (v : ℚ)
    (h : p ∈ mapSet m k v) : p.1 = k ∨ p ∈ m := by
  induction m with
  | nil => simp [mapSet] at h; simp [h]
  | cons q qs ih =>
    by_cases hq : q.1 = k
    · simp [mapSet, hq] at h
      rcases h with h | h
      · exact Or.inl (by simp [h])
      · exact Or.inr (List.mem_cons_of_mem _ h)
    · simp [mapSet, hq] at h
      rcases h with h | h
      · exact Or.inr (by simp [h])
      · rcases ih h with h' | h'
        · exact Or.inl h'
        · exact Or.inr (List.mem_cons_of_mem _ h')

/-! ## Stable descending sort lemmas -/

theorem mem_insertDescBy {α : Type} (key : α → ℚ) (a x : α) (l : List α) :
    x ∈ insertDescBy key a l ↔ x = a ∨ x ∈ l := by
  induction l with
  | nil => simp [insertDescBy]
  | cons b bs ih =>
    by_cases h : key b ≤ key a
    · simp [insertDescBy, h]
    · simp [insertDescBy, h, ih]
      tauto

theorem mem_sortDescBy {α : Type} (key : α → ℚ) (x : α) (l : List α) :
    x ∈ sortDescBy key l ↔ x ∈ l := by
  induction l with
  | nil => simp [sortDescBy]
  | cons a as ih => simp [sortDescBy, mem_insertDescBy, ih]

theorem pairwise_insertDescBy {α : Type} (key : α → ℚ) (a : α) (l : List α)
    (h : l.Pairwise (fun x y => key y ≤ key x)) :
    (insertDescBy key a l).Pairwise (fun x y => key y ≤ key x) := by
  induction l with
  | nil => simp [insertDescBy]
  | cons b bs ih =>
    rw [List.pairwise_cons] at h
    by_cases hba : key b ≤ key a
    · rw [insertDescBy, if_pos hba, List.pairwise_cons]
      refine ⟨?_, List.pairwise_cons.mpr h⟩
      intro x hx
      rcases List.mem_cons.mp hx with rfl | hx'
      · exact hba
      · exact le_trans (h.1 x hx') hba
    · rw [insertDescBy, if_neg hba, List.pairwise_cons]
      refine ⟨?_, ih h.2⟩
      intro x hx
      rcases (mem_insertDescBy key a x bs).mp hx with rfl | hx'
      · exact le_of_not_le hba
      · exact h.1 x hx'

theorem pairwise_sortDescBy {α : Type} (key : α → ℚ) (l : List α) :
    (sortDescBy key l).Pairwise (fun x y => key y ≤ key x) := by
  induction l with
  | nil => simp [sortDescBy]
  | cons a as ih => exact pairwise_insertDescBy key a _ ih

theorem filter_insertDescBy (key : α → ℚ) (q : ℚ) (a : α) (l : List α) :
    (insertDescBy key a l).filter (fun x => decide (key x = q)) =
      if key a = q then a :: l.filter (fun x => decide (key x = q))
      else l.filter (fun x => decide (key x = q)) := by
  induction l with
  | nil => by_cases h : key a = q <;> simp [insertDescBy, h]
  | cons b bs ih =>
    by_cases hba : key b ≤ key a
    · rw [insertDescBy, if_pos hba]
      by_cases ha : key a = q <;> simp [ha, List.filter_cons]
    · rw [insertDescBy, if_neg hba]
      by_cases ha : key a = q
      · have hb : ¬ key b = q := by
          intro hb
          exact hba (by rw [hb, ha])
        simp [List.filter_cons, hb, ih, ha]
      · by_cases hb : key b = q <;> simp [List.filter_cons, hb, ih, ha]

theorem filter_sortDescBy (key : α → ℚ) (q : ℚ) (l : List α) :
    (sortDescBy key l).filter (fun x => decide (key x = q)) =
      l.filter (fun x => decide (key x = q)) := by
  induction l with
  | nil => simp [sortDescBy]
  | cons a as ih =>
    rw [sortDescBy, filter_insertDescBy]
    by_cases ha : key a = q <;> simp [ha, List.filter_cons, ih]

theorem map_sum_insertDescBy (key : α → ℚ) (f : α → ℚ) (a : α) (l : List α) :
    ((insertDescBy key a l).map f).sum = f a + (l.map f).sum := by
  induction l with
  | nil => simp [insertDescBy]
  | cons b bs ih =>
    by_cases hba : key b ≤ key a
    · simp [insertDescBy, hba]
    · rw [insertDescBy, if_neg hba]
      simp [ih]
      ring

theorem map_sum_sortDescBy (key : α → ℚ) (f : α → ℚ) (l : List α) :
    ((sortDescBy key l).map f).sum = (l.map f).sum := by
  induction l with
  | nil => simp [sortDescBy]
  | cons a as ih => rw [sortDescBy, map_sum_insertDescBy, ih]; simp

/-! ## Credit-accumulation lemmas -/

theorem creditTag_resolved (allTags : List Tag) (allDomains : List DomainEntity)
    (m : ℚ) (st : MinuteMaps) (tid : String) (tag : Tag) (dn : String)
    (hT : tagMapGet allTags tid = some tag)
    (hD : domainMapGet allDomains tag.domainId = some dn) :
    creditTag allTags allDomains m st tid =
      (mapSet st.1 dn ((mapGet st.1 dn).getD 0 + m),
       mapSet st.2 tid ((mapGet st.2 tid).getD 0 + m)) := by
  simp [creditTag, hT, hD]

theorem mapGet_creditTag_snd_ne (allTags : List Tag) (allDomains : List DomainEntity)
    (m : ℚ) (st : MinuteMaps) (tid tid' : String) (h : tid' ≠ tid) :
    mapGet (creditTag allTags allDomains m st tid).2 tid' = mapGet st.2 tid' := by
  cases hT : tagMapGet allTags tid with
  | none => simp [creditTag, hT]
  | some tag =>
    cases hD : domainMapGet allDomains tag.domainId with
    | none => simp [creditTag, hT, hD]
    | some dn =>
      simp only [creditTag, hT, hD]
      exact mapGet_mapSet_ne _ _ _ _ h

theorem mapGet_creditTag_fst_of_not_target (allTags : List Tag)
    (allDomains : List DomainEntity) (m : ℚ) (st : MinuteMaps) (tid dn : String)
    (h : ∀ tag, tagMapGet allTags tid = some tag →
      ∀ dn', domainMapGet allDomains tag.domainId = some dn' → dn' ≠ dn) :
    mapGet (creditTag allTags allDomains m st tid).1 dn = mapGet st.1 dn := by
  cases hT : tagMapGet allTags tid with
  | none => simp [creditTag, hT]
  | some tag =>
    cases hD : domainMapGet allDomains tag.domainId with
    | none => simp [creditTag, hT, hD]
    | some dn' =>
      simp only [creditTag, hT, hD]
      exact mapGet_mapSet_ne _ _ _ _ (Ne.symm (h tag hT dn' hD))

theorem mapGet_foldl_creditTag_snd_not_mem (allTags : List Tag)
    (allDomains : List DomainEntity) (m : ℚ) (tid : String) (l : List String)
    (st : MinuteMaps) (h : tid ∉ l) :
    mapGet (l.foldl (creditTag allTags allDomains m) st).2 tid = mapGet st.2 tid := by
  induction l generalizing st with
  | nil => rfl
  | cons a as ih =>
    rw [List.mem_cons, not_or] at h
    rw [List.foldl_cons, ih _ h.2, mapGet_creditTag_snd_ne _ _ _ _ _ _ h.1]

theorem mapGet_foldl_creditTag_fst_no_target (allTags : List Tag)
    (allDomains : List DomainEntity) (m : ℚ) (dn : String) (l : List String)
    (st : MinuteMaps)
    (h : ∀ tid' ∈ l, ∀ tag, tagMapGet allTags tid' = some tag →
      ∀ dn', domainMapGet allDomains tag.domainId = some dn' → dn' ≠ dn) :
    mapGet (l.foldl (creditTag allTags allDomains m) st).1 dn = mapGet st.1 dn := by
  induction l generalizing st with
  | nil => rfl
  | cons a as ih =>
    rw [List.foldl_cons, ih _ (fun tid' h' => h tid' (List.mem_cons_of_mem _ h')),
      mapGet_creditTag_fst_of_not_target _ _ _ _ _ _ (h a (List.mem_cons_self a as))]

theorem processSlot_split_credits_tag (allTags : List Tag)
    (allDomains : List DomainEntity) (st : MinuteMaps) (slot : TimeSlot)
    (tid : String) (tag : Tag) (dn : String)
    (hnd : slot.tagIds.Nodup) (hmem : tid ∈ slot.tagIds)
    (hT : tagMapGet allTags tid = some tag)
    (hD : domainMapGet allDomains tag.domainId = some dn) :
    mapGet (processSlot allTags allDomains AttributionMode.split st slot).2 tid =
      some ((mapGet st.2 tid).getD 0 +
        getDurationMinutes slot.start slot.endTime / (slot.tagIds.length : ℚ)) := by
  obtain ⟨l₁, l₂, hl⟩ := List.append_of_mem hmem
  have hne : ¬ slot.tagIds.length = 0 := by simp [hl]
  have hnd' : (l₁ ++ tid :: l₂).Nodup := hl ▸ hnd
  rw [List.nodup_append] at hnd'
  have h₂ : tid ∉ l₂ := by
    have := hnd'.2.1
    rw [List.nodup_cons] at this
    exact this.1
  have h₁ : tid ∉ l₁ := fun hmem₁ =>
    hnd'.2.2 hmem₁ (List.mem_cons_self tid l₂)
  simp only [processSlot, if_neg hne]
  rw [hl, List.foldl_append, List.foldl_cons]
  rw [mapGet_foldl_creditTag_snd_not_mem _ _ _ _ _ _ h₂,
    creditTag_resolved _ _ _ _ _ _ _ hT hD]
  simp only []
  rw [mapGet_mapSet_self, mapGet_foldl_creditTag_snd_not_mem _ _ _ _ _ _ h₁]

theorem processSlot_split_credits_domain (allTags : List Tag)
    (allDomains : List DomainEntity) (st : MinuteMaps) (slot : TimeSlot)
    (tid : String) (tag : Tag) (dn : String)
    (hnd : slot.tagIds.Nodup) (hmem : tid ∈ slot.tagIds)
    (hT : tagMapGet allTags tid = some tag)
    (hD : domainMapGet allDomains tag.domainId = some dn)
    (honly : ∀ tid' ∈ slot.tagIds, tid' ≠ tid → ∀ t',
      tagMapGet allTags tid' = some t' →
      ∀ dn', domainMapGet allDomains t'.domainId = some dn' → dn' ≠ dn) :
    mapGet (processSlot allTags allDomains AttributionMode.split st slot).1 dn =
      some ((mapGet st.1 dn).getD 0 +
        getDurationMinutes slot.start slot.endTime / (slot.tagIds.length : ℚ)) := by
  obtain ⟨l₁, l₂, hl⟩ := List.append_of_mem hmem
  have hne : ¬ slot.tagIds.length = 0 := by simp [hl]
  have hnd' : (l₁ ++ tid :: l₂).Nodup := hl ▸ hnd
  rw [List.nodup_append] at hnd'
  have h₂ : tid ∉ l₂ := by
    have := hnd'.2.1
    rw [List.nodup_cons] at this
    exact this.1
  have h₁ : tid ∉ l₁ := fun hmem₁ =>
    hnd'.2.2 hmem₁ (List.mem_cons_self tid l₂)
  have hno₂ : ∀ tid' ∈ l₂, ∀ t', tagMapGet allTags tid' = some t' →
      ∀ dn', domainMapGet allDomains t'.domainId = some dn' → dn' ≠ dn := by
    intro tid' hmem' t' hT' dn' hD'
    have hmem'' : tid' ∈ slot.tagIds := by
      rw [hl]
      exact List.mem_append_right _ (List.mem_cons_of_mem _ hmem')
    exact honly tid' hmem'' (fun he => h₂ (he ▸ hmem')) t' hT' dn' hD'
  have hno₁ : ∀ tid' ∈ l₁, ∀ t', tagMapGet allTags tid' = some t' →
      ∀ dn', domainMapGet allDomains t'.domainId = some dn' → dn' ≠ dn := by
    intro tid' hmem' t' hT' dn' hD'
    have hmem'' : tid' ∈ slot.tagIds := by
      rw [hl]
      exact List.mem_append_left _ hmem'
    exact honly tid' hmem'' (fun he => h₁ (he ▸ hmem')) t' hT' dn' hD'
  simp only [processSlot, if_neg hne]
  rw [hl, List.foldl_append, List.foldl_cons]
  rw [mapGet_foldl_creditTag_fst_no_target _ _ _ _ _ _ hno₂,
    creditTag_resolved _ _ _ _ _ _ _ hT hD]
  simp only []
  rw [mapGet_mapSet_self, mapGet_foldl_creditTag_fst_no_target _ _ _ _ _ _ hno₁]

theorem processSlot_primary_eq (allTags : List Tag) (allDomains : List DomainEntity)
    (st : MinuteMaps) (slot : TimeSlot) (tid : String) (rest : List String)
    (tag : Tag) (dn : String)
    (hl : slot.tagIds = tid :: rest)
    (hT : tagMapGet allTags tid = some tag)
    (hD : domainMapGet allDomains tag.domainId = some dn) :
    processSlot allTags allDomains AttributionMode.primary st slot =
      (mapSet st.1 dn ((mapGet st.1 dn).getD 0 + getDurationMinutes slot.start slot.endTime),
       mapSet st.2 tid ((mapGet st.2 tid).getD 0 +
         getDurationMinutes slot.start slot.endTime)) := by
  have hne : ¬ slot.tagIds.length = 0 := by simp [hl]
  simp only [processSlot, if_neg hne, hl, List.take_cons, List.take_zero, List.foldl_cons,
    List.foldl_nil]
  exact creditTag_resolved _ _ _ _ _ _ _ hT hD

/-! ## Every accumulated domain name belongs to a domain record -/

theorem domainMapGet_mem (allDomains : List DomainEntity) (did dn : String)
    (h : domainMapGet allDomains did = some dn) : ∃ d ∈ allDomains, d.name = dn := by
  unfold domainMapGet at h
  cases hf : allDomains.reverse.find? (fun d => d.id == did) with
  | none => rw [hf] at h; simp at h
  | some d =>
    rw [hf] at h
    simp at h
    refine ⟨d, ?_, h⟩
    exact List.mem_reverse.mp (List.mem_of_find?_eq_some hf)

theorem namesFromDomains_creditTag (allTags : List Tag) (allDomains : List DomainEntity)
    (mpt : ℚ) (st : MinuteMaps) (tid : String)
    (h : NamesFromDomains allDomains st.1) :
    NamesFromDomains allDomains (creditTag allTags allDomains mpt st tid).1 := by
  cases hT : tagMapGet allTags tid with
  | none => simpa [creditTag, hT] using h
  | some tag =>
    cases hD : domainMapGet allDomains tag.domainId with
    | none => simpa [creditTag, hT, hD] using h
    | some dn =>
      simp only [creditTag, hT, hD]
      intro p hp
      rcases mem_mapSet p _ _ _ hp with hk | hk
      · exact hk ▸ domainMapGet_mem allDomains tag.domainId dn hD
      · exact h p hk

theorem namesFromDomains_foldl_creditTag (allTags : List Tag)
    (allDomains : List DomainEntity) (mpt : ℚ) (l : List String) (st : MinuteMaps)
    (h : NamesFromDomains allDomains st.1) :
    NamesFromDomains allDomains (l.foldl (creditTag allTags allDomains mpt) st).1 := by
  induction l generalizing st with
  | nil => exact h
  | cons a as ih =>
    exact ih _ (namesFromDomains_creditTag allTags allDomains mpt st a h)

theorem namesFromDomains_processSlot (allTags : List Tag)
    (allDomains : List DomainEntity) (mode : AttributionMode) (st : MinuteMaps)
    (slot : TimeSlot) (h : NamesFromDomains allDomains st.1) :
    NamesFromDomains allDomains (processSlot allTags allDomains mode st slot).1 := by
  unfold processSlot
  by_cases hlen : slot.tagIds.length = 0
  · simpa [hlen] using h
  · simp only [if_neg hlen]
    exact namesFromDomains_foldl_creditTag _ _ _ _ _ h

theorem namesFromDomains_accumulate (slots : List TimeSlot) (allTags : List Tag)
    (allDomains : List DomainEntity) (mode : AttributionMode) :
    NamesFromDomains allDomains (accumulateMinutes slots allTags allDomains mode).1 := by
  unfold accumulateMinutes
  have main : ∀ (l : List TimeSlot) (st : MinuteMaps), NamesFromDomains allDomains st.1 →
      NamesFromDomains allDomains (l.foldl (processSlot allTags allDomains mode) st).1 := by
    intro l
    induction l with
    | nil => exact fun st h => h
    | cons a as ih =>
      exact fun st h => ih _ (namesFromDomains_processSlot _ _ _ _ _ h)
  exact main slots ([], []) (by intro p hp; simp at hp)

/-! ## `buildDomainStat` characterization -/

theorem buildDomainStat_some_spec (allTags : List Tag) (allDomains : List DomainEntity)
    (tagMinutes : List (String × ℚ)) (totalMinutes : ℚ) (entry : String × ℚ)
    (st : DomainStat) (h : buildDomainStat allTags allDomains tagMinutes totalMinutes entry = some st) :
    st.domain = entry.1 ∧ st.minutes = entry.2 ∧
      st.percentage = (if 0 < totalMinutes then entry.2 / totalMinutes * 100 else 0) ∧
      st.subtags.Pairwise (fun x y => y.minutes ≤ x.minutes) ∧
      (∀ sub ∈ st.subtags, 0 < sub.minutes) := by
  unfold buildDomainStat at h
  cases hf : allDomains.find? (fun d => d.name == entry.1) with
  | none => rw [hf] at h; exact absurd h (by simp)
  | some d =>
    rw [hf] at h
    simp only [Option.some.injEq] at h
    subst h
    refine ⟨rfl, rfl, rfl, pairwise_sortDescBy _ _, ?_⟩
    intro sub hsub
    have hmem := (mem_sortDescBy (fun s => s.minutes) sub _).mp hsub
    have := List.of_mem_filter hmem
    simpa using this

theorem buildDomainStat_isSome (allTags : List Tag) (allDomains : List DomainEntity)
    (tagMinutes : List (String × ℚ)) (totalMinutes : ℚ) (entry : String × ℚ)
    (h : ∃ d ∈ allDomains, d.name = entry.1) :
    ∃ st, buildDomainStat allTags allDomains tagMinutes totalMinutes entry = some st := by
  unfold buildDomainStat
  cases hf : allDomains.find? (fun d => d.name == entry.1) with
  | none =>
    exfalso
    rcases h with ⟨d, hd, hname⟩
    have := List.find?_eq_none.mp hf d hd
    simp [hname] at this
  | some d => exact ⟨_, rfl⟩

/-- Over a map whose keys all name real domains, `filterMap buildDomainStat`
drops nothing: the produced stats carry the map's minutes in the map's
order. -/
theorem filterMap_buildDomainStat_maps (allTags : List Tag)
    (allDomains : List DomainEntity) (tagMinutes : List (String × ℚ))
    (totalMinutes : ℚ) (m : List (String × ℚ)) (h : NamesFromDomains allDomains m) :
    ((m.filterMap (buildDomainStat allTags allDomains tagMinutes totalMinutes)).map
        (fun st => st.minutes) = m.map (fun p => p.2)) ∧
      ((m.filterMap (buildDomainStat allTags allDomains tagMinutes totalMinutes)).map
        (fun st => st.domain) = m.map Prod.fst) := by
  induction m with
  | nil => simp
  | cons p ps ih =>
    have hp := h p (List.mem_cons_self p ps)
    obtain ⟨st, hst⟩ := buildDomainStat_isSome allTags allDomains tagMinutes totalMinutes p hp
    obtain ⟨hdom, hmin, -, -, -⟩ :=
      buildDomainStat_some_spec allTags allDomains tagMinutes totalMinutes p st hst
    have ihh := ih (fun q hq => h q (List.mem_cons_of_mem _ hq))
    simp [List.filterMap_cons, hst, hmin, hdom, ihh.1, ihh.2]

/-! ## Claim theorems -/

/-- C6: for every minutes value, `formatDuration` returns `"{round(minutes)}m"`
below 60; otherwise `"{floor(minutes/60)}h"` when the remainder `minutes % 60`
rounds to 0, and `"{floor(minutes/60)}h {round(remainder)}m"` otherwise; in
particular `formatDuration 45 = "45m"`, `formatDuration 60 = "1h"` and
`formatDuration 90 = "1h 30m"`. -/
theorem formatDuration_follows_spec :
    (∀ q : ℚ, formatDuration q = specFormatDuration q) ∧
      formatDuration 45 = "45m" ∧ formatDuration 60 = "1h" ∧
      formatDuration 90 = "1h 30m" := by
  refine ⟨fun q => rfl, ?_, ?_, ?_⟩
  · norm_num [formatDuration, jsRound]
    rfl
  · norm_num [formatDuration, jsRound, jsFmod, jsTrunc]
    rfl
  · norm_num [formatDuration, jsRound, jsFmod, jsTrunc]
    rfl

/-- C10: `calculateDomainStats` keys accumulation by domain NAME, not id.
With two distinct domain records both named "X" (ids dX1 and dX2), a
60-minute slot on dX1's tag `tA` and a 30-minute slot on dX2's tag `tB`
produce one single DomainStat named "X" whose minutes are the merged 90,
while its subtag list is built from the first record named "X" only
(`allDomains.find` by name), so it lists `tA` (60) and omits `tB`'s 30
minutes entirely. -/
theorem stats_merge_domains_by_name :
    calculateDomainStats [slotAlpha, slotBeta] [tagAlpha, tagBeta] [domX1, domX2]
        AttributionMode.split =
      [{ domain := "X", minutes := 90, percentage := 100,
         subtags := [{ tagId := "tA", name := "Alpha", minutes := 60 }] }] := by
  simp +decide [calculateDomainStats, unsortedDomainStats, accumulateMinutes, processSlot,
    creditTag, tagMapGet, domainMapGet, getDurationMinutes, mapGet, mapSet,
    buildDomainStat, sortDescBy, insertDescBy, slotAlpha, slotBeta, tagAlpha, tagBeta,
    domX1, domX2]
  norm_num

/-- C1 counterexample: `useTimeSlots` / `useTimeSlotsRange` (part_000) return
the raw inclusive range query over `start` without filtering `deletedAt`, so a
soft-deleted slot inside the range is returned. -/
theorem useTimeSlotsRange_returns_soft_deleted :
    timeslotsStartBetween storeWithTombstone 0 1000 = [slotDeleted] ∧
      slotDeleted.deletedAt = some 150 := by
  constructor
  · simp +decide [timeslotsStartBetween, storeWithTombstone]
  · rfl

/-- C1 amended: the HomePage's slots/tags/domains live queries (part_003)
return no record whose `deletedAt` is set; the part_000 hooks return the raw
range query and do not enjoy this invariant. -/
theorem home_queries_exclude_soft_deleted :
    ∀ (s : EntityStore) (lo hi : Int),
      ((homeSlotsQuery s lo hi).all fun ts => ts.deletedAt.isNone) = true ∧
        ((homeTagsQuery s).all fun t => t.deletedAt.isNone) = true ∧
        ((homeDomainsQuery s).all fun d => d.deletedAt.isNone) = true := by
  intro s lo hi
  refine ⟨?_, ?_, ?_⟩ <;>
    simp only [homeSlotsQuery, homeTagsQuery, homeDomainsQuery, List.all_eq_true] <;>
    intro x hx <;>
    exact (List.mem_filter.mp hx).2

theorem processSlot_untagged (allTags : List Tag) (allDomains : List DomainEntity)
    (mode : AttributionMode) (st : MinuteMaps) (slot : TimeSlot)
    (h : slot.tagIds = []) : processSlot allTags allDomains mode st slot = st := by
  simp [processSlot, h]

theorem foldl_processSlot_untagged (allTags : List Tag) (allDomains : List DomainEntity)
    (mode : AttributionMode) (slots : List TimeSlot) (st : MinuteMaps)
    (h : ∀ s ∈ slots, s.tagIds = []) :
    slots.foldl (processSlot allTags allDomains mode) st = st := by
  induction slots generalizing st with
  | nil => rfl
  | cons a as ih =>
    rw [List.foldl_cons, processSlot_untagged _ _ _ _ _ (h a (List.mem_cons_self a as))]
    exact ih _ (fun s hs => h s (List.mem_cons_of_mem _ hs))

/-- C7: a slot with empty `tagIds` contributes nothing under either mode: it
is skipped by the slot loop, deleting it from the input changes nothing, and
an input of only untagged slots yields the empty statistics list. -/
theorem untagged_slots_contribute_nothing :
    (∀ (allTags : List Tag) (allDomains : List DomainEntity) (mode : AttributionMode)
        (st : MinuteMaps) (slot : TimeSlot), slot.tagIds = [] →
      processSlot allTags allDomains mode st slot = st) ∧
    (∀ (allTags : List Tag) (allDomains : List DomainEntity) (mode : AttributionMode)
        (pre post : List TimeSlot) (u : TimeSlot), u.tagIds = [] →
      calculateDomainStats (pre ++ u :: post) allTags allDomains mode =
        calculateDomainStats (pre ++ post) allTags allDomains mode) ∧
    (∀ (allTags : List Tag) (allDomains : List DomainEntity) (mode : AttributionMode)
        (slots : List TimeSlot), (∀ s ∈ slots, s.tagIds = []) →
      calculateDomainStats slots allTags allDomains mode = []) := by
  refine ⟨processSlot_untagged, ?_, ?_⟩
  · intro allTags allDomains mode pre post u hu
    have hacc : accumulateMinutes (pre ++ u :: post) allTags allDomains mode =
        accumulateMinutes (pre ++ post) allTags allDomains mode := by
      unfold accumulateMinutes
      rw [List.foldl_append, List.foldl_append, List.foldl_cons,
        processSlot_untagged _ _ _ _ _ hu]
    unfold calculateDomainStats unsortedDomainStats
    rw [hacc]
  · intro allTags allDomains mode slots hall
    have hacc : accumulateMinutes slots allTags allDomains mode = ([], []) :=
      foldl_processSlot_untagged _ _ _ _ _ hall
    unfold calculateDomainStats unsortedDomainStats
    rw [hacc]
    rfl

/-- C7 witness: the untagged 60-minute slot is invisible to the pipeline at a
concrete input. -/
theorem untagged_slots_contribute_nothing_witness :
    processSlot [tagDeepWork] [domWork] AttributionMode.split ([], []) slotUntagged =
        ([], []) ∧
      calculateDomainStats [slotHalfHour, slotUntagged] [tagDeepWork] [domWork]
          AttributionMode.split =
        calculateDomainStats [slotHalfHour] [tagDeepWork] [domWork]
          AttributionMode.split ∧
      calculateDomainStats [slotUntagged] [tagDeepWork] [domWork]
          AttributionMode.primary = [] :=
  ⟨untagged_slots_contribute_nothing.1 _ _ _ _ _ (by decide),
   untagged_slots_contribute_nothing.2.1 _ _ AttributionMode.split [slotHalfHour] [] _
     (by decide),
   untagged_slots_contribute_nothing.2.2 _ _ _ _ (by decide)⟩

theorem isExpiredTombstone_eq_false_iff (now : Int) (da : Option Int) :
    isExpiredTombstone now da = false ↔
      ¬ ∃ t, da = some t ∧ retentionWindowMs ≤ now - t := by
  cases da <;> simp [isExpiredTombstone]

/-- C9: the garbage-collection sweep keeps exactly the records that are not
expired tombstones: a record survives iff it was in the store and it is not
soft-deleted with `now - deletedAt ≥ 7 days`; the kept records are the
original records in the original order (a sublist). -/
theorem gc_erases_exactly_expired_tombstones :
    ∀ (now : Int) (s : EntityStore),
      (∀ d : DomainEntity, d ∈ (cleanupOldDeletedRecords now s).domains ↔
        d ∈ s.domains ∧ ¬ ∃ t, d.deletedAt = some t ∧ retentionWindowMs ≤ now - t) ∧
      (∀ tg : Tag, tg ∈ (cleanupOldDeletedRecords now s).tags ↔
        tg ∈ s.tags ∧ ¬ ∃ t, tg.deletedAt = some t ∧ retentionWindowMs ≤ now - t) ∧
      (∀ ts : TimeSlot, ts ∈ (cleanupOldDeletedRecords now s).timeslots ↔
        ts ∈ s.timeslots ∧ ¬ ∃ t, ts.deletedAt = some t ∧ retentionWindowMs ≤ now - t) ∧
      ((cleanupOldDeletedRecords now s).domains.Sublist s.domains ∧
        (cleanupOldDeletedRecords now s).tags.Sublist s.tags ∧
        (cleanupOldDeletedRecords now s).timeslots.Sublist s.timeslots) := by
  intro now s
  refine ⟨?_, ?_, ?_, List.filter_sublist _, List.filter_sublist _, List.filter_sublist _⟩
  all_goals
    intro r
    rw [cleanupOldDeletedRecords]
    simp only [List.mem_filter, Bool.not_eq_true']
    rw [isExpiredTombstone_eq_false_iff]

theorem find?_filter_survivors {α : Type} (l : List (String × CacheEntry α))
    (pat k : String) (hk : strStartsWith k pat = false) :
    (l.filter (fun p => !strStartsWith p.1 pat)).find? (fun p => p.1 == k) =
      l.find? (fun p => p.1 == k) := by
  induction l with
  | nil => rfl
  | cons a as ih =>
    by_cases hak : a.1 = k
    · simp [List.filter_cons, List.find?_cons, hak, hk]
    · by_cases has : strStartsWith a.1 pat = true
      · simp [List.filter_cons, List.find?_cons, hak, has, ih]
      · simp [List.filter_cons, List.find?_cons, hak, has, ih]

/-- C8: after `invalidatePattern p`, `get` of every key starting with `p`
returns `null`, while a key not starting with `p` (even one containing `p`
elsewhere) keeps its exact entry — value and expiry — and its `get` result. -/
theorem invalidatePattern_removes_exactly_matching_keys :
    ∀ (α : Type) (c : DataCache α) (pat k : String) (now : Int),
      (strStartsWith k pat = true → (c.invalidatePattern pat).get k now = none) ∧
      (strStartsWith k pat = false →
        ((c.invalidatePattern pat).entries.find? (fun p => p.1 == k) =
          c.entries.find? (fun p => p.1 == k)) ∧
        (c.invalidatePattern pat).get k now = c.get k now) := by
  intro α c pat k now
  constructor
  · intro hk
    rw [DataCache.get]
    have hnone : (c.invalidatePattern pat).entries.find? (fun p => p.1 == k) = none := by
      rw [List.find?_eq_none]
      intro x hx
      rcases List.mem_filter.mp hx with ⟨-, hsurv⟩
      intro hxk
      rw [beq_iff_eq] at hxk
      rw [hxk] at hsurv
      rw [hk] at hsurv
      simp at hsurv
    rw [hnone]
  · intro hk
    have hfind := find?_filter_survivors c.entries pat k hk
    refine ⟨hfind, ?_⟩
    simp only [DataCache.get, DataCache.invalidatePattern]
    rw [hfind]

/-- C8 witness: on a concrete cache, `invalidatePattern "tags:"` removes
`"tags:all"` and leaves `"xtags:other"` (which merely contains the pattern)
untouched. -/
theorem invalidatePattern_removes_exactly_matching_keys_witness :
    ((cacheDemo.invalidatePattern "tags:").get "tags:all" 0 = none) ∧
      ((cacheDemo.invalidatePattern "tags:").get "xtags:other" 0 =
        cacheDemo.get "xtags:other" 0) :=
  ⟨(invalidatePattern_removes_exactly_matching_keys Nat cacheDemo "tags:" "tags:all" 0).1
      (by decide),
   ((invalidatePattern_removes_exactly_matching_keys Nat cacheDemo "tags:" "xtags:other" 0).2
      (by decide)).2⟩

/-- C2: under split attribution, a slot credits
`duration / tagIds.length` minutes to each of its (resolving, non-duplicated)
tags, and the same amount to that tag's domain when no other tag of the slot
lands in it; for the concrete 60-minute slot with two tags in distinct
domains, each domain is credited exactly 30 minutes and the output minutes
sum to the slot duration exactly. -/
theorem split_attribution_divides_evenly :
    (∀ (allTags : List Tag) (allDomains : List DomainEntity) (st : MinuteMaps)
        (slot : TimeSlot) (tid : String) (tag : Tag) (dn : String),
      slot.tagIds.Nodup → tid ∈ slot.tagIds →
      tagMapGet allTags tid = some tag →
      domainMapGet allDomains tag.domainId = some dn →
      (mapGet (processSlot allTags allDomains AttributionMode.split st slot).2 tid =
        some ((mapGet st.2 tid).getD 0 +
          getDurationMinutes slot.start slot.endTime / (slot.tagIds.length : ℚ))) ∧
      ((∀ tid' ∈ slot.tagIds, tid' ≠ tid → ∀ t', tagMapGet allTags tid' = some t' →
          ∀ dn', domainMapGet allDomains t'.domainId = some dn' → dn' ≠ dn) →
        mapGet (processSlot allTags allDomains AttributionMode.split st slot).1 dn =
          some ((mapGet st.1 dn).getD 0 +
            getDurationMinutes slot.start slot.endTime / (slot.tagIds.length : ℚ)))) ∧
    calculateDomainStats [slotHour] [tagDeepWork, tagRunning] [domWork, domHealth]
        AttributionMode.split =
      [{ domain := "Work", minutes := 30, percentage := 50,
         subtags := [{ tagId := "t1", name := "Deep Work", minutes := 30 }] },
       { domain := "Health", minutes := 30, percentage := 50,
         subtags := [{ tagId := "t2", name := "Running", minutes := 30 }] }] ∧
    ((calculateDomainStats [slotHour] [tagDeepWork, tagRunning] [domWork, domHealth]
        AttributionMode.split).map (fun st => st.minutes)).sum =
      getDurationMinutes slotHour.start slotHour.endTime := by
  refine ⟨?_, ?_, ?_⟩
  · intro allTags allDomains st slot tid tag dn hnd hmem hT hD
    exact ⟨processSlot_split_credits_tag allTags allDomains st slot tid tag dn hnd hmem hT hD,
      fun honly => processSlot_split_credits_domain allTags allDomains st slot tid tag dn
        hnd hmem hT hD honly⟩
  · simp +decide [calculateDomainStats, unsortedDomainStats, accumulateMinutes, processSlot,
      creditTag, tagMapGet, domainMapGet, getDurationMinutes, mapGet, mapSet,
      buildDomainStat, sortDescBy, insertDescBy, slotHour, tagDeepWork, tagRunning,
      domWork, domHealth]
    norm_num
  · simp +decide [calculateDomainStats, unsortedDomainStats, accumulateMinutes, processSlot,
      creditTag, tagMapGet, domainMapGet, getDurationMinutes, mapGet, mapSet,
      buildDomainStat, sortDescBy, insertDescBy, slotHour, tagDeepWork, tagRunning,
      domWork, domHealth]

/-- C2 witness: the first tag of the 60-minute two-tag slot is credited
`60 / 2` minutes on an empty accumulator. -/
theorem split_attribution_divides_evenly_witness :
    mapGet (processSlot [tagDeepWork, tagRunning] [domWork, domHealth]
        AttributionMode.split (([], []) : MinuteMaps) slotHour).2 "t1" =
      some ((mapGet (([], []) : MinuteMaps).2 "t1").getD 0 +
        getDurationMinutes slotHour.start slotHour.endTime /
          (slotHour.tagIds.length : ℚ)) :=
  (split_attribution_divides_evenly.1 [tagDeepWork, tagRunning] [domWork, domHealth]
    (([], []) : MinuteMaps) slotHour "t1" tagDeepWork "Work" (by decide) (by decide)
    (by decide) (by decide)).1

/-- C3: under primary attribution, a slot with first tag `tid` resolving to
domain `dn` credits its full duration to `tid` and its domain alone: the
accumulated minutes of every other tag id and of every other domain name are
untouched; for the concrete 60-minute slot tagged `[t1, t2]`, `t1`'s domain
gets the full 60 minutes and `t2`'s domain does not appear, i.e. is credited
nothing. -/
theorem primary_attribution_credits_first_tag :
    (∀ (allTags : List Tag) (allDomains : List DomainEntity) (st : MinuteMaps)
        (slot : TimeSlot) (tid : String) (rest : List String) (tag : Tag) (dn : String),
      slot.tagIds = tid :: rest →
      tagMapGet allTags tid = some tag →
      domainMapGet allDomains tag.domainId = some dn →
      (mapGet (processSlot allTags allDomains AttributionMode.primary st slot).2 tid =
        some ((mapGet st.2 tid).getD 0 + getDurationMinutes slot.start slot.endTime)) ∧
      (∀ tid', tid' ≠ tid →
        mapGet (processSlot allTags allDomains AttributionMode.primary st slot).2 tid' =
          mapGet st.2 tid') ∧
      (∀ dn', dn' ≠ dn →
        mapGet (processSlot allTags allDomains AttributionMode.primary st slot).1 dn' =
          mapGet st.1 dn')) ∧
    calculateDomainStats [slotHour] [tagDeepWork, tagRunning] [domWork, domHealth]
        AttributionMode.primary =
      [{ domain := "Work", minutes := 60, percentage := 100,
         subtags := [{ tagId := "t1", name := "Deep Work", minutes := 60 }] }] := by
  constructor
  · intro allTags allDomains st slot tid rest tag dn hl hT hD
    rw [processSlot_primary_eq allTags allDomains st slot tid rest tag dn hl hT hD]
    exact ⟨mapGet_mapSet_self _ _ _,
      fun tid' h => mapGet_mapSet_ne _ _ _ _ h,
      fun dn' h => mapGet_mapSet_ne _ _ _ _ h⟩
  · simp +decide [calculateDomainStats, unsortedDomainStats, accumulateMinutes, processSlot,
      creditTag, tagMapGet, domainMapGet, getDurationMinutes, mapGet, mapSet,
      buildDomainStat, sortDescBy, insertDescBy, slotHour, tagDeepWork, tagRunning,
      domWork, domHealth]
    norm_num

/-- C3 witness: on an empty accumulator the 60-minute slot's first tag is
credited the full duration under primary attribution. -/
theorem primary_attribution_credits_first_tag_witness :
    mapGet (processSlot [tagDeepWork, tagRunning] [domWork, domHealth]
        AttributionMode.primary (([], []) : MinuteMaps) slotHour).2 "t1" =
      some ((mapGet (([], []) : MinuteMaps).2 "t1").getD 0 +
        getDurationMinutes slotHour.start slotHour.endTime) :=
  (primary_attribution_credits_first_tag.1 [tagDeepWork, tagRunning] [domWork, domHealth]
    (([], []) : MinuteMaps) slotHour "t1" ["t2"] tagDeepWork "Work" (by decide) (by decide)
    (by decide)).1

/-- C5: the returned list is sorted descending by total minutes, and the sort
is stable: for every minutes value the stats carrying it appear in the same
order as in the pre-sort list, whose entries are in the order in which their
domain names were first credited (the key order of `domainMinutes`). -/
theorem domains_sorted_desc_and_stable :
    ∀ (slots : List TimeSlot) (allTags : List Tag) (allDomains : List DomainEntity)
      (mode : AttributionMode),
      (calculateDomainStats slots allTags allDomains mode).Pairwise
        (fun x y => y.minutes ≤ x.minutes) ∧
      (∀ q : ℚ, (calculateDomainStats slots allTags allDomains mode).filter
          (fun st => decide (st.minutes = q)) =
        (unsortedDomainStats slots allTags allDomains mode).filter
          (fun st => decide (st.minutes = q))) ∧
      ((unsortedDomainStats slots allTags allDomains mode).map (fun st => st.domain) =
        ((accumulateMinutes slots allTags allDomains mode).1).map Prod.fst) := by
  intro slots allTags allDomains mode
  simp only [calculateDomainStats]
  refine ⟨pairwise_sortDescBy _ _, fun q => filter_sortDescBy _ q _, ?_⟩
  simp only [unsortedDomainStats]
  exact (filterMap_buildDomainStat_maps _ _ _ _ _
    (namesFromDomains_accumulate slots allTags allDomains mode)).2

/-- C4: every returned DomainStat's percentage equals its minutes divided by
the grand total of minutes over all returned domains times 100, and 0 when
that grand total is 0; its subtag list holds only entries with positive
minutes, sorted descending.  On the concrete 30/90 input the (sorted)
percentages are 75 and 25, summing to 100. -/
theorem percentage_of_grand_total_and_subtags :
    (∀ (slots : List TimeSlot) (allTags : List Tag) (allDomains : List DomainEntity)
        (mode : AttributionMode) (st : DomainStat),
      st ∈ calculateDomainStats slots allTags allDomains mode →
      (st.percentage =
        if 0 < ((calculateDomainStats slots allTags allDomains mode).map
            (fun d => d.minutes)).sum then
          st.minutes / ((calculateDomainStats slots allTags allDomains mode).map
            (fun d => d.minutes)).sum * 100
        else 0) ∧
      st.subtags.Pairwise (fun x y => y.minutes ≤ x.minutes) ∧
      (∀ sub ∈ st.subtags, 0 < sub.minutes)) ∧
    ((calculateDomainStats [slotHalfHour, slotNinety] [tagDeepWork, tagRunning]
        [domWork, domHealth] AttributionMode.split).map (fun st => st.percentage) =
      [75, 25]) ∧
    (((calculateDomainStats [slotHalfHour, slotNinety] [tagDeepWork, tagRunning]
        [domWork, domHealth] AttributionMode.split).map (fun st => st.percentage)).sum =
      100) := by
  refine ⟨?_, ?_, ?_⟩
  · intro slots allTags allDomains mode st hmem
    have hnames := namesFromDomains_accumulate slots allTags allDomains mode
    have hmaps := filterMap_buildDomainStat_maps allTags allDomains
      (accumulateMinutes slots allTags allDomains mode).2
      (((accumulateMinutes slots allTags allDomains mode).1.map (fun p => p.2)).sum)
      ((accumulateMinutes slots allTags allDomains mode).1) hnames
    have hT : ((calculateDomainStats slots allTags allDomains mode).map
        (fun d => d.minutes)).sum =
        (((accumulateMinutes slots allTags allDomains mode).1).map (fun p => p.2)).sum := by
      simp only [calculateDomainStats]
      rw [map_sum_sortDescBy]
      simp only [unsortedDomainStats]
      rw [hmaps.1]
    have hmem' : st ∈ unsortedDomainStats slots allTags allDomains mode := by
      rw [calculateDomainStats] at hmem
      exact (mem_sortDescBy _ _ _).mp hmem
    rw [unsortedDomainStats] at hmem'
    obtain ⟨entry, hentry, hsome⟩ := List.mem_filterMap.mp hmem'
    obtain ⟨hdom, hmin, hperc, hsorted, hpos⟩ :=
      buildDomainStat_some_spec _ _ _ _ _ _ hsome
    refine ⟨?_, hsorted, hpos⟩
    rw [hT, hmin, hperc]
  · simp +decide [calculateDomainStats, unsortedDomainStats, accumulateMinutes, processSlot,
      creditTag, tagMapGet, domainMapGet, getDurationMinutes, mapGet, mapSet,
      buildDomainStat, sortDescBy, insertDescBy, slotHalfHour, slotNinety, tagDeepWork,
      tagRunning, domWork, domHealth]
    norm_num
  · simp +decide [calculateDomainStats, unsortedDomainStats, accumulateMinutes, processSlot,
      creditTag, tagMapGet, domainMapGet, getDurationMinutes, mapGet, mapSet,
      buildDomainStat, sortDescBy, insertDescBy, slotHalfHour, slotNinety, tagDeepWork,
      tagRunning, domWork, domHealth]
    norm_num

/-- C4 witness: the Health stat of the 30/90 example satisfies the percentage
formula (90 of 120 total is 75 percent). -/
theorem percentage_of_grand_total_and_subtags_witness :
    statHealthDemo.percentage =
      if 0 < ((calculateDomainStats [slotHalfHour, slotNinety] [tagDeepWork, tagRunning]
          [domWork, domHealth] AttributionMode.split).map (fun d => d.minutes)).sum then
        statHealthDemo.minutes /
          ((calculateDomainStats [slotHalfHour, slotNinety] [tagDeepWork, tagRunning]
            [domWork, domHealth] AttributionMode.split).map (fun d => d.minutes)).sum * 100
      else 0 :=
  (percentage_of_grand_total_and_subtags.1 [slotHalfHour, slotNinety]
    [tagDeepWork, tagRunning] [domWork, domHealth] AttributionMode.split statHealthDemo
    (by
      simp +decide [calculateDomainStats, unsortedDomainStats, accumulateMinutes,
        processSlot, creditTag, tagMapGet, domainMapGet, getDurationMinutes, mapGet,
        mapSet, buildDomainStat, sortDescBy, insertDescBy, slotHalfHour, slotNinety,
        tagDeepWork, tagRunning, domWork, domHealth, statHealthDemo]
      norm_num)).1

end DomainFlow
